import Mathlib

/-!
Verification of the compliance_llm repository's retrieval-and-response pipeline.

The Python sources are shallowly embedded as Lean functions over `List Char` /
`String`.  Strings are modelled as their character lists; the ASCII fragment of
Python's `str.upper` / `str.lower` is used (all identifiers handled by the
program are ASCII).  Fallible code paths (Python exceptions such as
`IndexError`) are modelled with `Option`.
-/

namespace ComplianceLLM

/-! ### Character class helpers (Python `re` classes, restricted to ASCII) -/

/-- `[A-Z]` -/
def isUpperCh (c : Char) : Bool := 'A' ≤ c && c ≤ 'Z'

/-- `[a-z]` -/
def isLowerCh (c : Char) : Bool := 'a' ≤ c && c ≤ 'z'

/-- `[0-9]` (Python `\d`, ASCII) -/
def isDigitCh (c : Char) : Bool := '0' ≤ c && c ≤ '9'

/-- `[a-z0-9]` — the character class used for enhancement tokens. -/
def isLowerDigitCh (c : Char) : Bool := isLowerCh c || isDigitCh c

/-- `[a-zA-Z0-9]` -/
def isAlnumCh (c : Char) : Bool := isUpperCh c || isLowerCh c || isDigitCh c

/-- Python `\w` (ASCII): letters, digits and underscore. -/
def isWordCh (c : Char) : Bool := isAlnumCh c || c = '_'

/-- Python `\s` (ASCII): space, tab, newline, vertical tab, form feed, carriage return. -/
def isSpaceCh (c : Char) : Bool :=
  c = ' ' || c = '\t' || c = '\n' || c = '\x0b' || c = '\x0c' || c = '\r'

/-- ASCII upper-casing of one character, as Python `str.upper` acts on ASCII. -/
def upCh (c : Char) : Char := if isLowerCh c then Char.ofNat (c.toNat - 32) else c

/-- ASCII lower-casing of one character, as Python `str.lower` acts on ASCII. -/
def lowCh (c : Char) : Char := if isUpperCh c then Char.ofNat (c.toNat + 32) else c

/-- Python `str.upper` (ASCII fragment). -/
def pyUpper (s : String) : String := ⟨s.data.map upCh⟩

/-- Python `str.lower` (ASCII fragment). -/
def pyLower (s : String) : String := ⟨s.data.map lowCh⟩

/-! ### List scanning lemmas -/

theorem mem_takeWhile_sat {p : α → Bool} : ∀ {l : List α} {a : α},
    a ∈ l.takeWhile p → p a = true := by
  intro l
  induction l with
  | nil => intro a h; simp at h
  | cons x xs ih =>
    intro a h
    rw [List.takeWhile_cons] at h
    cases hp : p x with
    | false => rw [hp] at h; simp at h
    | true =>
      rw [hp] at h
      simp at h
      cases h with
      | inl heq => exact heq ▸ hp
      | inr h2 => exact ih h2

theorem takeWhile_of_all {p : α → Bool} : ∀ {l : List α},
    (∀ a ∈ l, p a = true) → l.takeWhile p = l := by
  intro l
  induction l with
  | nil => intro _; rfl
  | cons x xs ih =>
    intro h
    rw [List.takeWhile_cons, h x (List.mem_cons_self x xs)]
    exact congrArg (x :: ·) (ih fun a ha => h a (List.mem_cons_of_mem x ha))

theorem dropWhile_of_all {p : α → Bool} : ∀ {l : List α},
    (∀ a ∈ l, p a = true) → l.dropWhile p = [] := by
  intro l
  induction l with
  | nil => intro _; rfl
  | cons x xs ih =>
    intro h
    rw [List.dropWhile_cons, h x (List.mem_cons_self x xs)]
    simp only [if_pos]
    exact ih fun a ha => h a (List.mem_cons_of_mem x ha)

theorem takeWhile_append_not {p : α → Bool} : ∀ {l₁ l₂ : List α},
    (∀ a ∈ l₁, p a = true) →
    (∀ c, l₂.head? = some c → p c = false) →
    (l₁ ++ l₂).takeWhile p = l₁ ∧ (l₁ ++ l₂).dropWhile p = l₂ := by
  intro l₁
  induction l₁ with
  | nil =>
    intro l₂ _ h2
    cases l₂ with
    | nil => exact ⟨rfl, rfl⟩
    | cons c cs =>
      rw [List.nil_append]
      constructor
      · rw [List.takeWhile_cons, h2 c rfl]; simp
      · rw [List.dropWhile_cons, h2 c rfl]; simp
  | cons x xs ih =>
    intro l₂ h1 h2
    have hx : p x = true := h1 x (List.mem_cons_self x xs)
    have hrec := ih (fun a ha => h1 a (List.mem_cons_of_mem x ha)) h2
    constructor
    · rw [List.cons_append, List.takeWhile_cons, hx]
      simp only [if_pos]
      exact congrArg (x :: ·) hrec.1
    · rw [List.cons_append, List.dropWhile_cons, hx]
      simp only [if_pos]
      exact hrec.2

theorem dropWhile_eq_cons_head_false {p : α → Bool} : ∀ {l : List α} {c : α} {cs : List α},
    l.dropWhile p = c :: cs → p c = false := by
  intro l
  induction l with
  | nil => intro c cs h; cases h
  | cons x xs ih =>
    intro c cs h
    rw [List.dropWhile_cons] at h
    cases hx : p x with
    | true => rw [hx] at h; simp only [if_true] at h; exact ih h
    | false =>
      rw [hx] at h
      simp only [Bool.false_eq_true, if_false] at h
      cases h
      exact hx

theorem dropWhile_head_not {p : α → Bool} {l : List α}
    (h : ∀ c, l.head? = some c → p c = false) : l.dropWhile p = l := by
  cases l with
  | nil => rfl
  | cons c cs => rw [List.dropWhile_cons, h c rfl]; simp

/-! ### `normalize_control_id` (src/parsers.py, modules/utils.py, nist_compliance_rag.py)

The three copies are textually identical:

    match = re.match(r'^([A-Z]{2})-0*([0-9]+)(?:\(([a-z0-9]+)\))?$', control_id)
    if match:
        family, number, enhancement = match.groups()
        return f"{family}-{number}" + (f"({enhancement})" if enhancement else "")
    return control_id

The anchored regex is embedded as a total parser on the character list.  Since
`0*` and `[0-9]+` both consume digits and the text after them must be `(` or
the end of the string, the digit region is the maximal digit run, and group 2
is that run with its leading zeros removed (keeping at least one digit, by
backtracking of the greedy `0*`). -/

structure CtrlParts where
  f1 : Char
  f2 : Char
  num : List Char
  enh : Option (List Char)
  deriving DecidableEq, Repr

/-- Parses the optional `(?:\(([a-z0-9]+)\))?$` tail of the anchored regex:
`some none` for the empty tail, `some (some e)` for a full `(e)` group, and
`none` when the regex does not match. -/
def parseEnh (after : List Char) : Option (Option (List Char)) :=
  match after with
  | [] => some none
  | a :: t =>
    if a = '(' then
      let e := t.takeWhile isLowerDigitCh
      let r := t.dropWhile isLowerDigitCh
      if e.isEmpty then none
      else if r = [')'] then some (some e) else none
    else none

def parseCtrl (s : List Char) : Option CtrlParts :=
  match s with
  | c1 :: c2 :: d :: rest =>
    if d = '-' && isUpperCh c1 && isUpperCh c2 then
      let digits := rest.takeWhile isDigitCh
      if digits.isEmpty then none
      else
        match parseEnh (rest.dropWhile isDigitCh) with
        | some enh => some ⟨c1, c2, digits, enh⟩
        | none => none
    else none
  | _ => none

/-- Group 2 of the regex: the digit run with the greedy `0*` stripped off,
leaving at least one digit. -/
def stripZeros (num : List Char) : List Char :=
  let s := num.dropWhile (fun c => c = '0')
  if s.isEmpty then ['0'] else s

def renderCtrl (p : CtrlParts) : List Char :=
  p.f1 :: p.f2 :: '-' :: (stripZeros p.num ++
    (match p.enh with
     | none => []
     | some e => '(' :: (e ++ [')'])))

def normalizeList (s : List Char) : List Char :=
  match parseCtrl s with
  | none => s
  | some p => renderCtrl p

def normalize_control_id (s : String) : String := ⟨normalizeList s.data⟩

/-! ### Idempotence of `normalize_control_id` -/

theorem stripZeros_idem (num : List Char) : stripZeros (stripZeros num) = stripZeros num := by
  unfold stripZeros
  cases hd : num.dropWhile (fun c => c = '0') with
  | nil => decide
  | cons c cs =>
    have hc := dropWhile_eq_cons_head_false (p := fun x => decide (x = '0')) hd
    simp only [List.isEmpty_cons, Bool.false_eq_true, if_false, List.dropWhile_cons, hc]

theorem stripZeros_ne_nil (num : List Char) : stripZeros num ≠ [] := by
  unfold stripZeros
  cases hd : num.dropWhile (fun c => c = '0') with
  | nil => simp
  | cons c cs => simp

theorem stripZeros_isEmpty_false (num : List Char) : (stripZeros num).isEmpty = false := by
  cases h : stripZeros num with
  | nil => exact absurd h (stripZeros_ne_nil num)
  | cons a l => rfl

theorem stripZeros_all_digits {num : List Char} (h : ∀ a ∈ num, isDigitCh a = true) :
    ∀ a ∈ stripZeros num, isDigitCh a = true := by
  intro a ha
  unfold stripZeros at ha
  cases hd : num.dropWhile (fun c => c = '0') with
  | nil =>
    rw [hd] at ha
    simp at ha
    subst ha
    decide
  | cons c cs =>
    rw [hd] at ha
    simp only [List.isEmpty_cons, Bool.false_eq_true, if_false] at ha
    have hsub : List.Sublist (c :: cs) num :=
      hd ▸ List.dropWhile_sublist (fun c => decide (c = '0'))
    exact h a (hsub.subset ha)

theorem parseEnh_render_none : parseEnh [] = some none := rfl

theorem isEmpty_false_of_ne_nil {l : List α} (h : l ≠ []) : l.isEmpty = false := by
  cases l with
  | nil => exact absurd rfl h
  | cons a t => rfl

theorem parseEnh_render_some {e : List Char} (hene : e ≠ [])
    (he : ∀ a ∈ e, isLowerDigitCh a = true) :
    parseEnh ('(' :: (e ++ [')'])) = some (some e) := by
  have hsplit := @takeWhile_append_not _ isLowerDigitCh e [')']
    he (by intro c hc; cases hc; decide)
  have hne : e.isEmpty = false := isEmpty_false_of_ne_nil hene
  simp [parseEnh, hsplit.1, hsplit.2, hne]

theorem parseCtrl_render (p : CtrlParts)
    (h1 : isUpperCh p.f1 = true) (h2 : isUpperCh p.f2 = true)
    (hnum : ∀ a ∈ p.num, isDigitCh a = true)
    (henh : ∀ e, p.enh = some e → e ≠ [] ∧ ∀ a ∈ e, isLowerDigitCh a = true) :
    parseCtrl (renderCtrl p) = some ⟨p.f1, p.f2, stripZeros p.num, p.enh⟩ := by
  obtain ⟨f1, f2, num, enh⟩ := p
  simp only [renderCtrl] at *
  have hs_digits : ∀ a ∈ stripZeros num, isDigitCh a = true := stripZeros_all_digits hnum
  have hs_ne : (stripZeros num).isEmpty = false := stripZeros_isEmpty_false num
  cases enh with
  | none =>
    have htw : (stripZeros num).takeWhile isDigitCh = stripZeros num :=
      takeWhile_of_all hs_digits
    have hdw : (stripZeros num).dropWhile isDigitCh = [] :=
      dropWhile_of_all hs_digits
    simp [parseCtrl, h1, h2, htw, hdw, hs_ne, parseEnh_render_none]
  | some e =>
    obtain ⟨hene, he⟩ := henh e rfl
    have hsplit := @takeWhile_append_not _ isDigitCh (stripZeros num) ('(' :: (e ++ [')']))
      hs_digits (by intro c hc; cases hc; decide)
    simp [parseCtrl, h1, h2, hsplit.1, hsplit.2, hs_ne, parseEnh_render_some hene he]

theorem parseEnh_facts {after : List Char} {enh : Option (List Char)}
    (h : parseEnh after = some enh) :
    ∀ e, enh = some e → e ≠ [] ∧ ∀ a ∈ e, isLowerDigitCh a = true := by
  intro e hee
  subst hee
  cases after with
  | nil => simp [parseEnh] at h
  | cons a t =>
    simp only [parseEnh] at h
    by_cases ha : a = '('
    · rw [if_pos ha] at h
      by_cases hee : (t.takeWhile isLowerDigitCh).isEmpty = true
      · rw [if_pos hee] at h; cases h
      · rw [if_neg hee] at h
        by_cases hr : t.dropWhile isLowerDigitCh = [')']
        · rw [if_pos hr] at h
          have h2 : t.takeWhile isLowerDigitCh = e := by
            injection h with h3
            injection h3
          refine ⟨?_, ?_⟩
          · intro hnil
            rw [h2, hnil] at hee
            exact hee rfl
          · intro a ha2
            exact mem_takeWhile_sat (h2 ▸ ha2)
        · rw [if_neg hr] at h; cases h
    · rw [if_neg ha] at h; cases h

theorem parseCtrl_facts {s : List Char} {p : CtrlParts} (h : parseCtrl s = some p) :
    isUpperCh p.f1 = true ∧ isUpperCh p.f2 = true ∧
    (∀ a ∈ p.num, isDigitCh a = true) ∧
    (∀ e, p.enh = some e → e ≠ [] ∧ ∀ a ∈ e, isLowerDigitCh a = true) := by
  cases s with
  | nil => cases h
  | cons c1 s1 =>
    cases s1 with
    | nil => cases h
    | cons c2 s2 =>
      cases s2 with
      | nil => cases h
      | cons d rest =>
        simp only [parseCtrl] at h
        by_cases hcond : (decide (d = '-') && isUpperCh c1 && isUpperCh c2) = true
        · rw [if_pos hcond] at h
          have hu : isUpperCh c1 = true ∧ isUpperCh c2 = true := by
            have h5 := hcond
            simp only [Bool.and_eq_true] at h5
            exact ⟨h5.1.2, h5.2⟩
          by_cases hne : (rest.takeWhile isDigitCh).isEmpty = true
          · rw [if_pos hne] at h; cases h
          · rw [if_neg hne] at h
            cases he : parseEnh (rest.dropWhile isDigitCh) with
            | none => rw [he] at h; cases h
            | some enh =>
              rw [he] at h
              cases h
              exact ⟨hu.1, hu.2, fun a ha => mem_takeWhile_sat ha, parseEnh_facts he⟩
        · rw [if_neg hcond] at h; cases h

theorem normalizeList_idem (s : List Char) :
    normalizeList (normalizeList s) = normalizeList s := by
  unfold normalizeList
  cases hp : parseCtrl s with
  | none => rw [hp]
  | some p =>
    obtain ⟨h1, h2, h3, h4⟩ := parseCtrl_facts hp
    rw [parseCtrl_render p h1 h2 h3 h4]
    simp only [renderCtrl, stripZeros_idem]

/-! ### Generic string helpers -/

/-- Python `needle in haystack` on character lists. -/
def containsSubList (needle : List Char) : List Char → Bool
  | [] => needle.isEmpty
  | c :: cs => needle.isPrefixOf (c :: cs) || containsSubList needle cs

/-- Python `needle in haystack`. -/
def containsSub (needle haystack : String) : Bool := containsSubList needle.data haystack.data

/-- Python `s.replace(' ', '')`. -/
def stripSpacesL (l : List Char) : List Char := l.filter (fun c => !(c = ' '))

/-! ### Control-id extraction (src/src/response_generator.py:199-200 and
nist_compliance_rag.py:315-316)

    control_pattern = re.compile(r'\b([A-Z]{2}-[0-9]{1,2}(?:\s*\([a-zA-Z0-9]+\))?)\b')
    control_ids = [match.replace(' ', '') for match in control_pattern.findall(query.upper())]

The regex is embedded as a leftmost, non-overlapping scanner with the same
backtracking behaviour: `[0-9]{1,2}` prefers two digits, the optional
enhancement group is preferred when it is followed by a word boundary, and the
trailing `\b` after `)` (a non-word character) holds only when the next
character is a word character. -/

/-- `\b` immediately before a word character: holds iff the preceding
character (if any) is not a word character. -/
def leadB (prev : Option Char) : Bool :=
  match prev with
  | none => true
  | some c => !(isWordCh c)

/-- `\b` between the last matched character and the remaining input. -/
def trailB (last : Char) (rest : List Char) : Bool :=
  match rest with
  | [] => isWordCh last
  | c :: _ => isWordCh last != isWordCh c

/-- The optional `(?:\s*\([a-zA-Z0-9]+\))?` group: returns the consumed text
and the remaining input when the group matches. -/
def matchEnhGroup (s : List Char) : Option (List Char × List Char) :=
  let sp := s.takeWhile isSpaceCh
  match s.dropWhile isSpaceCh with
  | '(' :: t =>
    let e := t.takeWhile isAlnumCh
    match t.dropWhile isAlnumCh with
    | ')' :: r => if e.isEmpty then none else some (sp ++ '(' :: (e ++ [')']), r)
    | _ => none
  | _ => none

/-- Finish a candidate match `pre` (ending in digit `lastd`) at remaining
input `rest`: greedily try the enhancement group, then check the trailing
word boundary, backtracking to the group-less alternative as the regex
engine does. -/
def finishCtrl (pre : List Char) (lastd : Char) (rest : List Char) :
    Option (List Char × List Char) :=
  match matchEnhGroup rest with
  | some (g, r) =>
    if trailB ')' r then some (pre ++ g, r)
    else if trailB lastd rest then some (pre, rest) else none
  | none => if trailB lastd rest then some (pre, rest) else none

/-- Attempt the control pattern at the current position (`prev` is the
character before it, for the leading `\b`). -/
def tryCtrl (prev : Option Char) (s : List Char) : Option (List Char × List Char) :=
  if leadB prev then
    match s with
    | c1 :: c2 :: c3 :: rest =>
      if c3 = '-' && isUpperCh c1 && isUpperCh c2 then
        match rest with
        | d1 :: rest1 =>
          if isDigitCh d1 then
            let two : Option (List Char × List Char) :=
              match rest1 with
              | d2 :: rest2 =>
                if isDigitCh d2 then finishCtrl [c1, c2, '-', d1, d2] d2 rest2 else none
              | [] => none
            match two with
            | some r => some r
            | none => finishCtrl [c1, c2, '-', d1] d1 rest1
          else none
        | [] => none
      else none
    | _ => none
  else none

/-- `re.findall` of the control pattern: leftmost, non-overlapping scan.
The fuel argument is the length of the scanned text; every step consumes at
least one character. -/
def findallCtrlAux : Nat → Option Char → List Char → List (List Char)
  | 0, _, _ => []
  | _ + 1, _, [] => []
  | n + 1, prev, c :: rest =>
    match tryCtrl prev (c :: rest) with
    | some (m, r) => m :: findallCtrlAux n m.getLast? r
    | none => findallCtrlAux n (some c) rest

def findallCtrl (s : List Char) : List (List Char) := findallCtrlAux s.length none s

/-- Lines 199-200: uppercase the query, find all control-pattern matches,
strip spaces from each match.  No normalization is applied. -/
def extract_control_ids (query : String) : List String :=
  (findallCtrl (query.data.map upCh)).map (fun m => ⟨stripSpacesL m⟩)

theorem filter_all_sat {p : α → Bool} (l : List α) : (l.filter p).all p = true := by
  rw [List.all_eq_true]
  intro a ha
  exact (List.mem_filter.mp ha).2

/-- C4: control-id normalization is idempotent on every string, and maps
`"AC-01"` to `"AC-1"` and `"CM-07(5)"` to `"CM-7(5)"`.  `normalize_control_id`
embeds the identical function defined in `src/parsers.py`, `modules/utils.py`
and `nist_compliance_rag.py`. -/
theorem C4_normalize_idempotent :
    (∀ s : String, normalize_control_id (normalize_control_id s) = normalize_control_id s) ∧
    normalize_control_id "AC-01" = "AC-1" ∧
    normalize_control_id "CM-07(5)" = "CM-7(5)" := by
  refine ⟨fun s => ?_, by decide, by decide⟩
  simp only [normalize_control_id, normalizeList_idem]

/-- C6 counterexample: the extraction at lines 199-200 of
src/src/response_generator.py applies no id normalization (`"AC-01"` stays
`"AC-01"`, while normalization would give `"AC-1"`), and the trailing `\b` of
the pattern prevents the space-separated enhancement from being captured when
it is followed by a non-word character (`"CM-7 (5)"` yields `"CM-7"`, not
`"CM-7(5)"`). -/
theorem C6_counterexample :
    extract_control_ids "assess AC-01" = ["AC-01"] ∧
    normalize_control_id "AC-01" = "AC-1" ∧
    ("AC-01" : String) ≠ "AC-1" ∧
    extract_control_ids "assess CM-7 (5)" = ["CM-7"] := by
  refine ⟨by decide, by decide, by decide, by decide⟩

/-- C6 as amended: extraction matches the control pattern in the uppercased
query and strips spaces from each match, but applies no normalization; the
parenthetical enhancement is kept only when the match ends at a word
boundary (i.e. when `)` is immediately followed by a word character);
first-occurrence order is preserved and duplicates are kept. -/
theorem C6_extraction_amended :
    (∀ q : String,
      (extract_control_ids q).all (fun t => t.data.all (fun c => !(c = ' '))) = true) ∧
    extract_control_ids "Assess AU-3 and AU-3 on linux" = ["AU-3", "AU-3"] ∧
    extract_control_ids "assess CM-7(5)x" = ["CM-7(5)"] ∧
    extract_control_ids "assess CM-7 (5)" = ["CM-7"] ∧
    extract_control_ids "assess AC-01" = ["AC-01"] := by
  refine ⟨fun q => ?_, by decide, by decide, by decide, by decide⟩
  rw [List.all_eq_true]
  intro t ht
  simp only [extract_control_ids, List.mem_map] at ht
  obtain ⟨m, _, rfl⟩ := ht
  exact filter_all_sat m

/-! ### Retrieval post-filter (src/src/vector_store.py:66-75)

    retrieved_docs = [doc_list[idx] for idx in indices[0]]
    control_match = re.search(r'(\w{2}-\d+(?:\([a-z0-9]+\))?)', query, re.IGNORECASE)
    if control_match:
        control_id = normalize_control_id(control_match.group(1).upper())
        retrieved_docs = [doc for doc in retrieved_docs if control_id in doc] or retrieved_docs[:5]

The nearest-neighbour search itself (`model.encode`, `index.search`) is an
external collaborator, so the ranked list `retrieved` is a parameter; the
function below embeds the post-filter. -/

/-- Generic `re.search`: try the matcher at each position, leftmost first.
The fuel argument is the length of the text; each step consumes one
character, and none of the embedded patterns can match the empty string. -/
def searchAux (try_ : List Char → Option α) : Nat → List Char → Option α
  | 0, _ => none
  | _ + 1, [] => none
  | n + 1, c :: rest =>
    match try_ (c :: rest) with
    | some m => some m
    | none => searchAux try_ n rest

def reSearch (try_ : List Char → Option α) (s : List Char) : Option α :=
  searchAux try_ s.length s

/-- One attempt of `(\w{2}-\d+(?:\([a-z0-9]+\))?)` with `re.IGNORECASE`
(`[a-z0-9]` therefore matches `[a-zA-Z0-9]`).  `\d+` is maximal and the
optional group is taken exactly when a full `(...)` follows. -/
def tryCtrlTok (s : List Char) : Option (List Char) :=
  match s with
  | c1 :: c2 :: c3 :: rest =>
    if c3 = '-' && isWordCh c1 && isWordCh c2 then
      let ds := rest.takeWhile isDigitCh
      if ds.isEmpty then none
      else
        let enh : List Char :=
          match rest.dropWhile isDigitCh with
          | '(' :: t =>
            match t.dropWhile isAlnumCh with
            | ')' :: _ =>
              let e := t.takeWhile isAlnumCh
              if e.isEmpty then [] else '(' :: (e ++ [')'])
            | _ => []
          | _ => []
        some (c1 :: c2 :: c3 :: (ds ++ enh))
    else none
  | _ => none

/-- Lines 69-74 of src/src/vector_store.py (the part after the external
nearest-neighbour search). -/
def retrieve_documents_filter (query : String) (retrieved : List String) : List String :=
  match reSearch tryCtrlTok query.data with
  | none => retrieved
  | some tok =>
    let control_id := normalize_control_id (pyUpper ⟨tok⟩)
    let filtered := retrieved.filter (fun d => containsSub control_id d)
    if filtered.isEmpty then retrieved.take 5 else filtered

theorem take_ne_nil_of_ne_nil {l : List α} (h : l ≠ []) (n : Nat) (hn : 0 < n) :
    l.take n ≠ [] := by
  cases l with
  | nil => exact absurd rfl h
  | cons a t =>
    cases n with
    | zero => exact absurd hn (by omega)
    | succ m => simp

/-- C9: when the query contains a token of the `\w{2}-\d+` shape, the
retrieved list is post-filtered to the documents containing the normalized
token as a substring; when no document contains it, the first five retrieved
documents are returned instead; hence the result is non-empty whenever the
raw retrieval was non-empty. -/
theorem C9_retrieve_post_filter (q : String) (r : List String) (tok : List Char)
    (h : reSearch tryCtrlTok q.data = some tok) :
    (r.filter (fun d => containsSub (normalize_control_id (pyUpper ⟨tok⟩)) d) ≠ [] →
      retrieve_documents_filter q r =
        r.filter (fun d => containsSub (normalize_control_id (pyUpper ⟨tok⟩)) d)) ∧
    (r.filter (fun d => containsSub (normalize_control_id (pyUpper ⟨tok⟩)) d) = [] →
      retrieve_documents_filter q r = r.take 5) ∧
    (r ≠ [] → retrieve_documents_filter q r ≠ []) := by
  unfold retrieve_documents_filter
  rw [h]
  dsimp only
  refine ⟨?_, ?_, ?_⟩
  · intro hne
    rw [if_neg]
    simp only [List.isEmpty_iff]
    exact hne
  · intro he
    rw [if_pos]
    simp only [List.isEmpty_iff]
    exact he
  · intro hr
    by_cases hf : r.filter (fun d => containsSub (normalize_control_id (pyUpper ⟨tok⟩)) d) = []
    · rw [if_pos (by simpa only [List.isEmpty_iff] using hf)]
      exact take_ne_nil_of_ne_nil hr 5 (by omega)
    · rw [if_neg (by simpa only [List.isEmpty_iff] using hf)]
      exact hf

/-- Witness for C9 at a concrete query and retrieved list. -/
theorem C9_witness :
    retrieve_documents_filter "How do I assess AC-1?"
      ["NIST 800-53 Rev 5 Catalog, AC-1: Policy and Procedures", "unrelated snippet"] =
      ["NIST 800-53 Rev 5 Catalog, AC-1: Policy and Procedures"] ∧
    retrieve_documents_filter "How do I assess AC-1?" ["unrelated snippet"] ≠ [] := by
  constructor
  · exact (C9_retrieve_post_filter "How do I assess AC-1?"
      ["NIST 800-53 Rev 5 Catalog, AC-1: Policy and Procedures", "unrelated snippet"]
      ['A', 'C', '-', '1'] (by decide)).1 (by decide)
  · exact (C9_retrieve_post_filter "How do I assess AC-1?" ["unrelated snippet"]
      ['A', 'C', '-', '1'] (by decide)).2.2 (by decide)

/-! ### Assessment-snippet filter (src/src/response_generator.py:293-294,
nist_compliance_rag.py:344)

    assess_docs = [doc.split(': ', 1)[1] for doc in retrieved_docs
                   if f"Assessment, {control_id}" in doc]
    steps = assess_docs if assess_docs else extract_actionable_steps(ctrl['description'])

The membership test is Python substring containment.  `split(': ', 1)[1]`
raises `IndexError` when the separator is absent, so the comprehension is
modelled with `Option`. -/

/-- The text after the first occurrence of `sep`, `none` if `sep` is absent
(where Python raises `IndexError`). -/
def splitOnceAfter (sep : List Char) : List Char → Option (List Char)
  | [] => none
  | c :: cs =>
    if sep.isPrefixOf (c :: cs) then some ((c :: cs).drop sep.length)
    else splitOnceAfter sep cs

/-- `Option`-valued map over a list: `some` of the image when every element
maps to `some`, `none` otherwise. -/
def mapOpt (f : α → Option β) : List α → Option (List β)
  | [] => some []
  | x :: xs =>
    match f x, mapOpt f xs with
    | some y, some ys => some (y :: ys)
    | _, _ => none

/-- Line 293: the comprehension building `assess_docs`. -/
def assess_docs_for (control_id : String) (retrieved_docs : List String) :
    Option (List String) :=
  mapOpt (fun d => (splitOnceAfter ": ".data d.data).map (fun l => (⟨l⟩ : String)))
    (retrieved_docs.filter (fun d => containsSub ("Assessment, " ++ control_id) d))

/-- Line 294: the steps rendered into the assessment response, with the
actionable-step extractor (spaCy, an external collaborator) as a parameter. -/
def assess_steps (extractor : String → List String) (control_id : String)
    (retrieved_docs : List String) (description : String) : Option (List String) :=
  (assess_docs_for control_id retrieved_docs).map
    (fun a => if a.isEmpty then extractor description else a)

/-- C1: the filter at line 293 uses substring containment, so the
`"Assessment, AC-1"` needle matches an `"Assessment, AC-17"`-tagged snippet
and the AC-17 text is rendered among the AC-1 assessment steps, although the
two ids are distinct after normalization.  This evaluates the code at the
failing input of the claim. -/
theorem C1_substring_cross_contamination :
    containsSub "Assessment, AC-1"
      "NIST 800-53 Rev 5 Assessment, AC-17: Configure remote access sessions." = true ∧
    assess_docs_for "AC-1"
      ["NIST 800-53 Rev 5 Assessment, AC-17: Configure remote access sessions."] =
      some ["Configure remote access sessions."] ∧
    assess_steps (fun _ => []) "AC-1"
      ["NIST 800-53 Rev 5 Assessment, AC-17: Configure remote access sessions."] "" =
      some ["Configure remote access sessions."] ∧
    normalize_control_id "AC-17" ≠ normalize_control_id "AC-1" := by
  refine ⟨by decide, by decide, by decide, by decide⟩

/-! ### Query classification (src/src/response_generator.py:99-215)

`generate_response` dispatches on the query with a fixed sequence of
checks; the classifier below mirrors that branch order (first match wins).
The rendered response bodies are presentation, except for the CCI-lookup
branch which is embedded below (ANSI colour escape sequences omitted). -/

/-- `(cci-\d+)` at one position (searched in the lowercased query). -/
def tryCci (s : List Char) : Option (List Char) :=
  match s with
  | 'c' :: 'c' :: 'i' :: '-' :: rest =>
    let ds := rest.takeWhile isDigitCh
    if ds.isEmpty then none else some ('c' :: 'c' :: 'i' :: '-' :: ds)
  | _ => none

/-- Python literal-prefix consumption. -/
def dropLit (lit : List Char) (s : List Char) : Option (List Char) :=
  if lit.isPrefixOf s then some (s.drop lit.length) else none

/-- Group 1 of the reverse-CCI pattern:
`(\w{2}-\d+(?:\s*[a-z])?(?:\([a-z0-9]+\))?)`. -/
def parseRevGroup (s : List Char) : Option (List Char) :=
  match s with
  | c1 :: c2 :: c3 :: rest =>
    if c3 = '-' && isWordCh c1 && isWordCh c2 then
      let ds := rest.takeWhile isDigitCh
      if ds.isEmpty then none
      else
        let r0 := rest.dropWhile isDigitCh
        let p1 : Option (List Char × List Char) :=
          let sp := r0.takeWhile isSpaceCh
          match r0.dropWhile isSpaceCh with
          | c :: r2 => if isLowerCh c then some (sp ++ [c], r2) else none
          | [] => none
        let q1 := p1.getD ([], r0)
        let part2 : List Char :=
          match q1.2 with
          | '(' :: t =>
            match t.dropWhile isLowerDigitCh with
            | ')' :: _ =>
              let e := t.takeWhile isLowerDigitCh
              if e.isEmpty then [] else '(' :: (e ++ [')'])
            | _ => []
          | _ => []
        some (c1 :: c2 :: c3 :: (ds ++ q1.1 ++ part2))
    else none
  | _ => none

/-- The part of the reverse-CCI pattern after the optional `list|show`
prefix: `\s*cci\s*mappings\s*for\s*(...)`. -/
def contReverse (s : List Char) : Option (List Char) :=
  (dropLit "cci".data (s.dropWhile isSpaceCh)).bind fun s1 =>
  (dropLit "mappings".data (s1.dropWhile isSpaceCh)).bind fun s2 =>
  (dropLit "for".data (s2.dropWhile isSpaceCh)).bind fun s3 =>
  parseRevGroup (s3.dropWhile isSpaceCh)

/-- One position of
`(?:list|show)?\s*cci\s*mappings\s*for\s*(\w{2}-\d+(?:\s*[a-z])?(?:\([a-z0-9]+\))?)`
with the regex engine's alternation order: `list`, then `show`, then the
empty prefix. -/
def tryReverse (s : List Char) : Option (List Char) :=
  match (dropLit "list".data s).bind contReverse with
  | some g => some g
  | none =>
    match (dropLit "show".data s).bind contReverse with
    | some g => some g
    | none => contReverse s

/-- Group 1 plus trailing context of `what is\s+(\w{2}-\d+(?:\(\d+\))?)\s*\?`
after the literal `what is` and the mandatory whitespace. -/
def parseSummaryGroup (s : List Char) : Option (List Char) :=
  match s with
  | c1 :: c2 :: c3 :: rest =>
    if c3 = '-' && isWordCh c1 && isWordCh c2 then
      let ds := rest.takeWhile isDigitCh
      if ds.isEmpty then none
      else
        let r0 := rest.dropWhile isDigitCh
        let p1 : Option (List Char × List Char) :=
          match r0 with
          | '(' :: t =>
            match t.dropWhile isDigitCh with
            | ')' :: r2 =>
              let e := t.takeWhile isDigitCh
              if e.isEmpty then none else some ('(' :: (e ++ [')']), r2)
            | _ => none
          | _ => none
        let q1 := p1.getD ([], r0)
        match q1.2.dropWhile isSpaceCh with
        | '?' :: _ => some (c1 :: c2 :: c3 :: (ds ++ q1.1))
        | _ => none
    else none
  | _ => none

/-- One position of the control-summary pattern
`what is\s+(\w{2}-\d+(?:\(\d+\))?)\s*\?`. -/
def trySummary (s : List Char) : Option (List Char) :=
  (dropLit "what is".data s).bind fun s1 =>
  if (s1.takeWhile isSpaceCh).isEmpty then none
  else parseSummaryGroup (s1.dropWhile isSpaceCh)

inductive QueryIntent where
  | cciLookup : String → QueryIntent
  | reverseCciLookup : String → QueryIntent
  | cciSummary : QueryIntent
  | controlSummary : String → QueryIntent
  | listStigs : QueryIntent
  | unrecognized : QueryIntent
  | assessControl : List String → QueryIntent
  | implementControl : List String → QueryIntent
  | genericLookup : List String → QueryIntent
  deriving DecidableEq, Repr

/-- The branch order of `generate_response` (lines 104, 117, 133, 144, 176,
199-215): CCI lookup, reverse CCI lookup, CCI summary, control summary,
list-stigs, then control-id extraction with assess/audit taking precedence
over implement, generic lookup otherwise, unrecognized when no id found. -/
def classify_query (query : String) : QueryIntent :=
  let ql := pyLower query
  match reSearch tryCci ql.data with
  | some m => .cciLookup (pyUpper ⟨m⟩)
  | none =>
  match reSearch tryReverse ql.data with
  | some g => .reverseCciLookup (normalize_control_id (pyUpper ⟨g⟩))
  | none =>
  if containsSub "show cci mappings" ql then .cciSummary
  else
  match reSearch trySummary ql.data with
  | some g => .controlSummary (pyUpper ⟨g⟩)
  | none =>
  if containsSub "list stigs" ql then .listStigs
  else
  let cids := extract_control_ids query
  if cids.isEmpty then .unrecognized
  else if containsSub "assess" ql || containsSub "audit" ql then .assessControl cids
  else if containsSub "implement" ql then .implementControl cids
  else .genericLookup cids

structure CtrlRec where
  title : String
  description : String
  parameters : List String
  related_controls : List String
  deriving DecidableEq, Repr

/-- First-match association-list lookup (Python `dict` access on the maps
built by the loaders, whose keys are unique). -/
def lookupA (m : List (String × α)) (k : String) : Option α :=
  match m with
  | [] => none
  | (k', v) :: rest => if k = k' then some v else lookupA rest k

/-- Lines 106-115: the CCI-lookup response body (colour escapes omitted). -/
def cci_lookup_response (cci_id : String) (cci_to_nist : List (String × String))
    (control_details : List (String × CtrlRec)) : List String :=
  let nist_control := (lookupA cci_to_nist cci_id).getD "Not mapped to NIST 800-53 Rev 5"
  let normalized := normalize_control_id nist_control
  ["CCI Lookup:", "- " ++ cci_id ++ " maps to NIST " ++ normalized] ++
  (match lookupA control_details normalized with
   | some ctrl => ["- **Title:** " ++ ctrl.title, "- **Description:** " ++ ctrl.description]
   | none => [])

/-- C5: `"What is CCI-000130?"` is classified by the first branch (the CCI
regex search) and therefore renders the CCI-to-control mapping; it is neither
a generic lookup of retrieved snippets nor unrecognized, because the CCI
check precedes every other branch in `generate_response`. -/
theorem C5_classifier_precedence :
    classify_query "What is CCI-000130?" = .cciLookup "CCI-000130" ∧
    cci_lookup_response "CCI-000130" [("CCI-000130", "AU-3")] [] =
      ["CCI Lookup:", "- CCI-000130 maps to NIST AU-3"] := by
  refine ⟨by decide, by decide⟩

/-! ### Technology resolution (src/src/response_generator.py:217-267)

The disambiguation/selection slice of `generate_response` for assess and
implement queries.  `tech_hint` is the lowercased `on <words>` clause
(line 220), `selected_idx` the `with technology index (\d+)` value (lines
201-202), both already extracted; the early `return` at line 256 is the
`disambiguate` outcome, the `return "Invalid technology selection."` at
line 267 the `invalid` outcome. -/

structure Stig where
  file : String
  title : String
  technology : String
  benchmark_id : String
  version : String
  deriving DecidableEq, Repr

structure StigRule where
  rule_id : String
  title : String
  fix : String
  severity : Option String
  deriving DecidableEq, Repr

/-- `all_stig_recommendations`: technology name → control id → rule list. -/
abbrev RecTable := List (String × List (String × List StigRule))

/-- Python `str.split()` with no argument: split on whitespace runs,
dropping empty fields.  Fuel is the length of the text. -/
def pySplitWsAux : Nat → List Char → List (List Char)
  | 0, _ => []
  | n + 1, l =>
    match l.dropWhile isSpaceCh with
    | [] => []
    | l1 =>
      l1.takeWhile (fun c => !(isSpaceCh c)) ::
        pySplitWsAux n (l1.dropWhile (fun c => !(isSpaceCh c)))

def pySplitWs (s : String) : List String :=
  (pySplitWsAux s.data.length s.data).map (fun l => (⟨l⟩ : String))

def joinWith (sep : String) : List String → String
  | [] => ""
  | [x] => x
  | x :: xs => x ++ sep ++ joinWith sep xs

/-- src/src/response_generator.py:39-44.  (`title` and `technology` are
always present on the records built by `load_stig_data`, so the `.get`
defaults never fire.) -/
def get_technology_name (stig : Stig) : String :=
  let title := stig.title
  if containsSub "STIG" title && !(title = "Untitled STIG") &&
      (pySplitWs title).length > 2 then
    joinWith " " ((pySplitWs title).filter (fun w =>
      !(containsSub "STIG" w) && !(containsSub "V" w) &&
      !(containsSub "R" (⟨w.data.take 2⟩))))
  else stig.technology

/-- Python `dict` assignment: replace the value at an existing key in place,
else append. -/
def updateAssoc (m : List (String × α)) (k : String) (v : α) : List (String × α) :=
  match m with
  | [] => [(k, v)]
  | (k', v') :: rest =>
    if k' = k then (k', v) :: rest else (k', v') :: updateAssoc rest k v

/-- Line 223: `{get_technology_name(stig).lower(): stig for stig in available_stigs}`. -/
def techToStig (available_stigs : List Stig) : List (String × Stig) :=
  available_stigs.foldl
    (fun m stig => updateAssoc m (pyLower (get_technology_name stig)) stig) []

/-- Lexicographic comparison on code points — Python's `<=` on strings. -/
def lexLe : List Char → List Char → Bool
  | [], _ => true
  | _ :: _, [] => false
  | a :: xs, b :: ys =>
    if a.toNat < b.toNat then true
    else if b.toNat < a.toNat then false
    else lexLe xs ys

def strLe (a b : String) : Bool := lexLe a.data b.data

def insertSorted (x : String) : List String → List String
  | [] => [x]
  | y :: ys => if strLe x y then x :: y :: ys else y :: insertSorted x ys

/-- `sorted` on a list of distinct strings. -/
def insSort : List String → List String
  | [] => []
  | x :: xs => insertSorted x (insSort xs)

def memB (l : List String) (a : String) : Bool := l.any (fun x => x = a)

def dedupAux (seen : List String) : List String → List String
  | [] => []
  | x :: xs => if memB seen x then dedupAux seen xs else x :: dedupAux (x :: seen) xs

/-- First-occurrence deduplication; `insSort ∘ dedupStr` is Python's
`sorted(set(...))`. -/
def dedupStr (l : List String) : List String := dedupAux [] l

def hasKey (m : List (String × α)) (k : String) : Bool := (lookupA m k).isSome

/-- Lines 225-231: the technologies (dictionary keys) having at least one
hardening rule for one of the control ids. -/
def applicableTechs (control_ids : List String) (t2s : List (String × Stig))
    (recs : RecTable) : List String :=
  t2s.filterMap (fun p =>
    if control_ids.any (fun cid => hasKey ((lookupA recs p.2.technology).getD []) cid)
    then some p.1 else none)

/-- Lines 233-246: `unique_techs`, including the hint filtering and the
(dead) fallback at line 244. -/
def uniqueTechs (control_ids : List String) (tech_hint : Option String)
    (available_stigs : List Stig) (recs : RecTable) : List String :=
  let t2s := techToStig available_stigs
  let all_techs := insSort (dedupStr (t2s.map (fun p => p.1)))
  let applicable := applicableTechs control_ids t2s recs
  let unique0 := insSort (dedupStr applicable)
  let unique1 :=
    match tech_hint with
    | none => unique0
    | some hint =>
      let matching := all_techs.filter (fun t => containsSub (pyLower hint) (pyLower t))
      if matching.isEmpty then unique0
      else
        let inter := insSort (dedupStr (matching.filter (fun t => memB applicable t)))
        if inter.isEmpty then matching else inter
  if unique1.isEmpty && !applicable.isEmpty then applicable else unique1

inductive TechResolution where
  | disambiguate : List String → TechResolution
  | selected : List String → TechResolution
  | invalid : TechResolution
  deriving DecidableEq, Repr

def defaultStig : Stig := ⟨"", "", "", "", ""⟩

/-- `tech_to_stig[t]['technology']` (the key is always present). -/
def techOf (t2s : List (String × Stig)) (t : String) : String :=
  ((lookupA t2s t).getD defaultStig).technology

/-- Lines 248-267: disambiguation and selection.  The disambiguation
response lists, for each candidate key in order, the stig's display
technology, version and title from `tech_to_stig`. -/
def resolve_technologies (control_ids : List String) (tech_hint : Option String)
    (selected_idx : Option Nat) (available_stigs : List Stig) (recs : RecTable) :
    TechResolution :=
  let t2s := techToStig available_stigs
  let unique := uniqueTechs control_ids tech_hint available_stigs recs
  if selected_idx.isNone && unique.length > 1 then .disambiguate unique
  else
    match selected_idx with
    | some i =>
      if i = 0 then .selected (unique.map (techOf t2s))
      else if 1 ≤ i && i ≤ unique.length then
        .selected [techOf t2s (unique.getD (i - 1) "")]
      else if unique.length = 1 then .selected (unique.map (techOf t2s))
      else if unique.isEmpty then .selected []
      else .invalid
    | none =>
      if unique.length = 1 then .selected (unique.map (techOf t2s))
      else .selected []

/-! ### Sortedness and membership lemmas for the resolver -/

theorem lexLe_total : ∀ (a b : List Char), lexLe a b = true ∨ lexLe b a = true := by
  intro a
  induction a with
  | nil => intro b; left; rfl
  | cons x xs ih =>
    intro b
    cases b with
    | nil => right; rfl
    | cons y ys =>
      by_cases hxy : x.toNat < y.toNat
      · left; simp [lexLe, hxy]
      · by_cases hyx : y.toNat < x.toNat
        · right; simp [lexLe, hyx]
        · cases ih ys with
          | inl h => left; simp [lexLe, hxy, hyx, h]
          | inr h => right; simp [lexLe, hxy, hyx, h]

theorem strLe_total (a b : String) : strLe a b = true ∨ strLe b a = true :=
  lexLe_total a.data b.data

theorem chain'_insertSorted (x : String) : ∀ (l : List String),
    List.Chain' (fun a b => strLe a b = true) l →
    List.Chain' (fun a b => strLe a b = true) (insertSorted x l) := by
  intro l
  induction l with
  | nil => intro _; simp [insertSorted]
  | cons y ys ih =>
    intro h
    unfold insertSorted
    by_cases hxy : strLe x y = true
    · rw [if_pos hxy]
      exact List.chain'_cons.mpr ⟨hxy, h⟩
    · rw [if_neg hxy]
      have hyx : strLe y x = true := (strLe_total x y).resolve_left hxy
      obtain ⟨hhead, htail⟩ := List.chain'_cons'.mp h
      refine List.chain'_cons'.mpr ⟨?_, ih htail⟩
      intro b hb
      cases ys with
      | nil =>
        simp [insertSorted] at hb
        exact hb ▸ hyx
      | cons z zs =>
        by_cases hxz : strLe x z = true
        · simp [insertSorted, hxz] at hb
          exact hb ▸ hyx
        · simp [insertSorted, hxz] at hb
          exact hb ▸ hhead z rfl

theorem chain'_insSort : ∀ (l : List String),
    List.Chain' (fun a b => strLe a b = true) (insSort l) := by
  intro l
  induction l with
  | nil => simp [insSort]
  | cons x xs ih => exact chain'_insertSorted x (insSort xs) ih

theorem mem_insertSorted {a x : String} : ∀ {l : List String},
    a ∈ insertSorted x l ↔ a = x ∨ a ∈ l := by
  intro l
  induction l with
  | nil => simp [insertSorted]
  | cons y ys ih =>
    unfold insertSorted
    by_cases h : strLe x y = true
    · rw [if_pos h]
      simp [List.mem_cons]
    · rw [if_neg h]
      simp only [List.mem_cons, ih]
      tauto

theorem mem_insSort {a : String} : ∀ {l : List String}, a ∈ insSort l ↔ a ∈ l := by
  intro l
  induction l with
  | nil => simp [insSort]
  | cons x xs ih => simp [insSort, mem_insertSorted, ih]

theorem memB_eq_true_iff {l : List String} {a : String} : memB l a = true ↔ a ∈ l := by
  simp only [memB, List.any_eq_true, decide_eq_true_eq]
  exact ⟨fun ⟨x, hx, he⟩ => he ▸ hx, fun h => ⟨a, h, rfl⟩⟩

theorem memB_eq_false_iff {l : List String} {a : String} : memB l a = false ↔ a ∉ l := by
  rw [← Bool.not_eq_true, not_iff_not]
  exact memB_eq_true_iff

theorem mem_dedupAux {a : String} : ∀ {l seen : List String},
    a ∈ dedupAux seen l ↔ (a ∈ l ∧ memB seen a = false) := by
  intro l
  induction l with
  | nil => intro seen; simp [dedupAux]
  | cons x xs ih =>
    intro seen
    unfold dedupAux
    by_cases hx : memB seen x = true
    · rw [if_pos hx, ih]
      constructor
      · rintro ⟨hmem, hs⟩
        exact ⟨List.mem_cons_of_mem _ hmem, hs⟩
      · rintro ⟨hmem, hs⟩
        rcases List.mem_cons.mp hmem with heq | hmem2
        · rw [heq] at hs
          rw [hs] at hx
          cases hx
        · exact ⟨hmem2, hs⟩
    · rw [if_neg hx]
      have hxf : memB seen x = false := by
        cases hv : memB seen x with
        | false => rfl
        | true => exact absurd hv hx
      simp only [List.mem_cons, ih]
      constructor
      · rintro (heq | ⟨hmem, hs⟩)
        · exact ⟨Or.inl heq, heq ▸ hxf⟩
        · refine ⟨Or.inr hmem, ?_⟩
          have := memB_eq_false_iff.mp hs
          rw [memB_eq_false_iff]
          intro hcon
          exact this (List.mem_cons_of_mem _ hcon)
      · rintro ⟨hmem, hs⟩
        rcases hmem with heq | hmem2
        · exact Or.inl heq
        · by_cases hax : a = x
          · exact Or.inl hax
          · refine Or.inr ⟨hmem2, ?_⟩
            rw [memB_eq_false_iff]
            intro hcon
            rcases List.mem_cons.mp hcon with h1 | h2
            · exact hax h1
            · exact memB_eq_false_iff.mp hs h2

theorem mem_dedupStr {a : String} {l : List String} : a ∈ dedupStr l ↔ a ∈ l := by
  unfold dedupStr
  rw [mem_dedupAux]
  simp [memB]

theorem insertSorted_ne_nil (x : String) (l : List String) : insertSorted x l ≠ [] := by
  cases l with
  | nil => simp [insertSorted]
  | cons y ys =>
    unfold insertSorted
    by_cases h : strLe x y = true
    · rw [if_pos h]; simp
    · rw [if_neg h]; simp

theorem dedupStr_ne_nil {l : List String} (h : l ≠ []) : dedupStr l ≠ [] := by
  cases l with
  | nil => exact absurd rfl h
  | cons x xs =>
    unfold dedupStr dedupAux
    rw [if_neg (by simp [memB])]
    simp

theorem insSort_ne_nil {l : List String} (h : l ≠ []) : insSort l ≠ [] := by
  cases l with
  | nil => exact absurd rfl h
  | cons x xs => exact insertSorted_ne_nil x (insSort xs)

theorem mem_applicableTechs {cids : List String} {t2s : List (String × Stig)}
    {recs : RecTable} {t : String} :
    t ∈ applicableTechs cids t2s recs ↔
    ∃ s : Stig, (t, s) ∈ t2s ∧
      cids.any (fun cid => hasKey ((lookupA recs s.technology).getD []) cid) = true := by
  unfold applicableTechs
  rw [List.mem_filterMap]
  constructor
  · rintro ⟨⟨p1, p2⟩, hp, hf⟩
    by_cases hc : cids.any (fun cid => hasKey ((lookupA recs p2.technology).getD []) cid) = true
    · rw [if_pos hc] at hf
      injection hf with hf
      exact ⟨p2, hf ▸ hp, hc⟩
    · rw [if_neg hc] at hf
      cases hf
  · rintro ⟨s, hs, hcond⟩
    exact ⟨(t, s), hs, by rw [if_pos hcond]⟩

theorem uniqueTechs_none (cids : List String) (stigs : List Stig) (recs : RecTable) :
    uniqueTechs cids none stigs recs =
      insSort (dedupStr (applicableTechs cids (techToStig stigs) recs)) := by
  unfold uniqueTechs
  dsimp only
  by_cases happ : applicableTechs cids (techToStig stigs) recs = []
  · rw [happ]
    decide
  · rw [if_neg]
    rw [isEmpty_false_of_ne_nil (insSort_ne_nil (dedupStr_ne_nil happ))]
    simp

/-- C2: for assess/implement queries with at least two candidate
technologies and no selection index (and no technology hint), the resolver
returns the disambiguation outcome carrying exactly the applicable
technologies in sorted order and produces no selection; re-invoking with
index `0` selects every listed candidate and with `1 ≤ i ≤ N` exactly the
`i`-th candidate of the sorted list. -/
theorem C2_disambiguation_protocol (cids : List String) (stigs : List Stig)
    (recs : RecTable) (h2 : 2 ≤ (uniqueTechs cids none stigs recs).length) :
    (resolve_technologies cids none none stigs recs =
      .disambiguate (uniqueTechs cids none stigs recs)) ∧
    List.Chain' (fun a b => strLe a b = true) (uniqueTechs cids none stigs recs) ∧
    (∀ t, t ∈ uniqueTechs cids none stigs recs ↔
      ∃ s : Stig, (t, s) ∈ techToStig stigs ∧
        cids.any (fun cid => hasKey ((lookupA recs s.technology).getD []) cid) = true) ∧
    (resolve_technologies cids none (some 0) stigs recs =
      .selected ((uniqueTechs cids none stigs recs).map (techOf (techToStig stigs)))) ∧
    (∀ i, 1 ≤ i → i ≤ (uniqueTechs cids none stigs recs).length →
      resolve_technologies cids none (some i) stigs recs =
        .selected [techOf (techToStig stigs)
          ((uniqueTechs cids none stigs recs).getD (i - 1) "")]) := by
  refine ⟨?_, ?_, ?_, ?_, ?_⟩
  · unfold resolve_technologies
    dsimp only
    rw [if_pos]
    simp only [Option.isNone_none, Bool.true_and, decide_eq_true_eq]
    omega
  · rw [uniqueTechs_none]
    exact chain'_insSort _
  · intro t
    rw [uniqueTechs_none, mem_insSort, mem_dedupStr, mem_applicableTechs]
  · unfold resolve_technologies
    dsimp only
    rw [if_neg (by simp), if_pos rfl]
  · intro i h1 hle
    unfold resolve_technologies
    dsimp only
    rw [if_neg (by simp)]
    rw [if_neg (by omega)]
    rw [if_pos]
    simp only [Bool.and_eq_true, decide_eq_true_eq]
    omega

def demoStigW10 : Stig := ⟨"w10.xml", "Windows 10 Benchmark", "Windows 10", "W10", "V2R1"⟩

def demoStigRH9 : Stig := ⟨"rh9.xml", "Red Hat 9 Benchmark", "Red Hat 9", "RH9", "V1R1"⟩

def demoRecs : RecTable :=
  [("Windows 10", [("AU-3", [⟨"W-1", "w rule", "w fix", some "high"⟩])]),
   ("Red Hat 9", [("AU-3", [⟨"R-1", "r rule", "r fix", some "medium"⟩])])]

/-- Witness for C2 at a concrete two-technology scenario. -/
theorem C2_disambiguation_witness :
    resolve_technologies ["AU-3"] none none [demoStigW10, demoStigRH9] demoRecs =
      .disambiguate ["red hat 9", "windows 10"] ∧
    resolve_technologies ["AU-3"] none (some 0) [demoStigW10, demoStigRH9] demoRecs =
      .selected ["Red Hat 9", "Windows 10"] ∧
    resolve_technologies ["AU-3"] none (some 1) [demoStigW10, demoStigRH9] demoRecs =
      .selected ["Red Hat 9"] := by
  have h := C2_disambiguation_protocol ["AU-3"] [demoStigW10, demoStigRH9] demoRecs (by decide)
  refine ⟨?_, ?_, ?_⟩
  · rw [h.1]; decide
  · rw [h.2.2.2.1]; decide
  · rw [h.2.2.2.2 1 (by decide) (by decide)]; decide

/-- C3 counterexample: with exactly one candidate technology, the
out-of-range selection index `5` does not produce the invalid-selection
error — the `len(unique_techs) == 1` fallthrough at line 262 selects the
single candidate instead. -/
theorem C3_counterexample :
    (uniqueTechs ["AU-3"] none [demoStigW10] demoRecs).length = 1 ∧
    resolve_technologies ["AU-3"] none (some 5) [demoStigW10] demoRecs =
      .selected ["Windows 10"] ∧
    resolve_technologies ["AU-3"] none (some 5) [demoStigW10] demoRecs ≠
      .invalid := by
  refine ⟨by decide, by decide, by decide⟩

/-- C3 as amended: an out-of-range selection index yields the
invalid-selection outcome exactly when there are at least two candidate
technologies; with exactly one candidate the single candidate is selected
whatever the index, and with no candidates the empty selection results. -/
theorem C3_invalid_selection_amended (cids : List String) (hint : Option String)
    (stigs : List Stig) (recs : RecTable) (i : Nat) :
    (2 ≤ (uniqueTechs cids hint stigs recs).length →
      (uniqueTechs cids hint stigs recs).length < i →
      resolve_technologies cids hint (some i) stigs recs = .invalid) ∧
    ((uniqueTechs cids hint stigs recs).length = 1 →
      resolve_technologies cids hint (some i) stigs recs =
        .selected ((uniqueTechs cids hint stigs recs).map (techOf (techToStig stigs)))) ∧
    (uniqueTechs cids hint stigs recs = [] →
      resolve_technologies cids hint (some i) stigs recs = .selected []) := by
  refine ⟨?_, ?_, ?_⟩
  · intro h2 hgt
    unfold resolve_technologies
    dsimp only
    rw [if_neg (by simp)]
    rw [if_neg (by omega)]
    rw [if_neg (by simp only [Bool.and_eq_true, decide_eq_true_eq]; omega)]
    rw [if_neg (by omega)]
    rw [if_neg]
    rw [isEmpty_false_of_ne_nil]
    · simp
    · intro hnil
      rw [hnil] at h2
      simp at h2
  · intro h1
    obtain ⟨t, ht⟩ := List.length_eq_one.mp h1
    unfold resolve_technologies
    dsimp only
    rw [if_neg (by simp)]
    by_cases hi0 : i = 0
    · rw [if_pos hi0]
    · rw [if_neg hi0]
      by_cases hi1 : i = 1
      · rw [if_pos (by simp only [Bool.and_eq_true, decide_eq_true_eq]; omega)]
        rw [ht]
        simp [hi1]
      · rw [if_neg (by simp only [Bool.and_eq_true, decide_eq_true_eq]; omega)]
        rw [if_pos h1]
  · intro hnil
    unfold resolve_technologies
    dsimp only
    rw [if_neg (by simp)]
    by_cases hi0 : i = 0
    · rw [if_pos hi0, hnil]
      rfl
    · rw [if_neg hi0]
      rw [if_neg (by
        rw [hnil]
        simp only [List.length_nil, Bool.and_eq_true, decide_eq_true_eq]
        omega)]
      rw [if_neg (by rw [hnil]; simp)]
      rw [if_pos (by rw [hnil]; rfl)]

/-- Witness for the amended C3 at a concrete two-technology scenario with
the out-of-range index 5. -/
theorem C3_invalid_selection_witness :
    resolve_technologies ["AU-3"] none (some 5) [demoStigW10, demoStigRH9] demoRecs =
      .invalid := by
  exact (C3_invalid_selection_amended ["AU-3"] none [demoStigW10, demoStigRH9]
    demoRecs 5).1 (by decide) (by decide)

/-! ### Checklist export (src/src/response_generator.py:46-97)

`save_checklist` writes a header row, then one row per NIST assessment step
and one row per matched hardening rule.  The file write is a side effect;
the table content is embedded as a list of rows (each a list of the seven
cell strings).  At line 80, `line[1] == '.'` raises `IndexError` when a
stripped fix line is a single digit, so row building is `Option`-valued. -/

/-- Python `str.replace(old, new)` (all non-overlapping occurrences,
leftmost first); `old` is non-empty at every call site.  Fuel is the text
length. -/
def replaceAux (old new : List Char) : Nat → List Char → List Char
  | 0, s => s
  | _ + 1, [] => []
  | n + 1, c :: cs =>
    if old.isPrefixOf (c :: cs) then new ++ replaceAux old new n ((c :: cs).drop old.length)
    else c :: replaceAux old new n cs

def pyReplace (s old new : String) : String :=
  ⟨replaceAux old.data new.data s.data.length s.data⟩

/-- Python `str.strip()` (ASCII whitespace). -/
def pyStripL (l : List Char) : List Char :=
  ((l.dropWhile isSpaceCh).reverse.dropWhile isSpaceCh).reverse

def pyStrip (s : String) : String := ⟨pyStripL s.data⟩

/-- Python `str.capitalize()`: first character upper-cased, the rest
lower-cased (ASCII fragment). -/
def pyCapitalize (s : String) : String :=
  match s.data with
  | [] => ""
  | c :: cs => ⟨upCh c :: cs.map lowCh⟩

/-- Python `str.split(sep)` for a one-character separator. -/
def splitOnChar (sep : Char) : List Char → List (List Char)
  | [] => [[]]
  | c :: cs =>
    match splitOnChar sep cs with
    | [] => [[]]
    | h :: t => if c = sep then [] :: h :: t else (c :: h) :: t

/-- Lines 56-61: the task text of one NIST assessment-step row. -/
def nistTask (step : String) : String :=
  let task := pyStrip (pyReplace (pyReplace (pyLower step)
    "to assess this control, verify " "") "check parameters: none specified" "")
  if containsSub "[assignment:" task then
    "Verify " ++
      pyReplace (pyReplace (pyReplace task "[assignment: organization-defined " "")
        "]" "") "[withdrawn: incorporated into ac-6.]" "Withdrawn (see AC-6)" ++
      " as defined by your organization."
  else "Verify " ++ pyCapitalize task ++ "."

/-- Lines 62-70: one NIST step row (`i` is the 1-based step number). -/
def nistRow (control_id : String) (i : Nat) (step : String) : List String :=
  ["NIST 800-53", control_id, "Verify Compliance (" ++ toString i ++ ")", nistTask step,
   "N/A", "Access control policy, logs, or config screenshots", "Pending"]

def nistRowsAux (control_id : String) (i : Nat) : List String → List (List String)
  | [] => []
  | s :: ss => nistRow control_id i s :: nistRowsAux control_id (i + 1) ss

def nistRows (control_id : String) (steps : List String) : List (List String) :=
  nistRowsAux control_id 1 steps

/-- `formatted[-1] += " " + line` (the guard ensures the list is non-empty). -/
def attachToLast (l : List Char) : List (List Char) → List (List Char)
  | [] => []
  | [x] => [x ++ (' ' :: l)]
  | x :: xs => x :: attachToLast l xs

/-- Lines 78-85: one iteration of the fix-line formatting loop.  `none`
models the `IndexError` of `line[1]` when the stripped line is a single
digit. -/
def fmtLine (acc : List (List Char)) (l0 : List Char) : Option (List (List Char)) :=
  let l := pyStripL l0
  match l with
  | [] => some acc
  | c :: cs =>
    if isDigitCh c then
      match cs with
      | [] => none
      | c2 :: _ =>
        if c2 = '.' then some (acc ++ [('-' :: ' ' :: l)])
        else
          match acc with
          | [] => some [('-' :: ' ' :: l)]
          | _ :: _ => some (attachToLast l acc)
    else
      match acc with
      | [] => some [('-' :: ' ' :: l)]
      | _ :: _ => some (attachToLast l acc)

def formatFixAux (acc : List (List Char)) : List (List Char) → Option (List (List Char))
  | [] => some acc
  | l :: ls =>
    match fmtLine acc l with
    | none => none
    | some acc2 => formatFixAux acc2 ls

/-- Line 86: the task text of one STIG rule row. -/
def stigTask (rec : StigRule) : Option String :=
  (formatFixAux [] (splitOnChar '\n' rec.fix.data)).map (fun fmt =>
    "Verify " ++ rec.title ++ ":\n" ++ joinWith "\n" (fmt.map (fun l => (⟨l⟩ : String))))

/-- Lines 87-95: one STIG rule row. -/
def stigRow (tech : String) (rec : StigRule) : Option (List String) :=
  (stigTask rec).map (fun task =>
    ["STIG " ++ tech, rec.rule_id, "Configure and Verify", task,
     pyCapitalize (rec.severity.getD "medium"),
     "Configuration settings, logs, or admin console screenshots", "Pending"])

def stigRowsCtrls (tech : String) : List (String × List StigRule) →
    Option (List (List String))
  | [] => some []
  | cr :: rest =>
    match mapOpt (stigRow tech) cr.2, stigRowsCtrls tech rest with
    | some a, some b => some (a ++ b)
    | _, _ => none

/-- Lines 72-95: the nested loop over technologies, matched controls and
rules. -/
def stigRowsFor : List (String × List (String × List StigRule)) →
    Option (List (List String))
  | [] => some []
  | tr :: rest =>
    match stigRowsCtrls tr.1 tr.2, stigRowsFor rest with
    | some a, some b => some (a ++ b)
    | _, _ => none

def checklistHeader : List String :=
  ["Source", "Control/Rule", "Action", "Assessment Task", "Severity",
   "Expected Evidence", "Status"]

/-- The full table written by `save_checklist` (header plus data rows). -/
def save_checklist_rows (control_id : String) (steps : List String)
    (stig_recommendations : List (String × List (String × List StigRule))) :
    Option (List (List String)) :=
  (stigRowsFor stig_recommendations).map
    (fun srows => checklistHeader :: (nistRows control_id steps ++ srows))

/-- The number of matched hardening rules across all technologies. -/
def countRules (recs : List (String × List (String × List StigRule))) : Nat :=
  (recs.map (fun tr => (tr.2.map (fun cr => cr.2.length)).sum)).sum

theorem mapOpt_length {f : α → Option β} : ∀ {xs : List α} {ys : List β},
    mapOpt f xs = some ys → ys.length = xs.length := by
  intro xs
  induction xs with
  | nil =>
    intro ys h
    simp [mapOpt] at h
    subst h
    rfl
  | cons x xs ih =>
    intro ys h
    unfold mapOpt at h
    cases hf : f x with
    | none => rw [hf] at h; cases h
    | some y =>
      rw [hf] at h
      cases hm : mapOpt f xs with
      | none => rw [hm] at h; cases h
      | some ys2 =>
        rw [hm] at h
        cases h
        simp [ih hm]

theorem mapOpt_mem {f : α → Option β} : ∀ {xs : List α} {ys : List β},
    mapOpt f xs = some ys → ∀ y ∈ ys, ∃ x, f x = some y := by
  intro xs
  induction xs with
  | nil =>
    intro ys h y hy
    simp [mapOpt] at h
    subst h
    simp at hy
  | cons x xs ih =>
    intro ys h y hy
    unfold mapOpt at h
    cases hf : f x with
    | none => rw [hf] at h; cases h
    | some y2 =>
      rw [hf] at h
      cases hm : mapOpt f xs with
      | none => rw [hm] at h; cases h
      | some ys2 =>
        rw [hm] at h
        cases h
        rcases List.mem_cons.mp hy with heq | hmem
        · exact ⟨x, heq ▸ hf⟩
        · exact ih hm y hmem

theorem nistRowsAux_length (control_id : String) : ∀ (i : Nat) (steps : List String),
    (nistRowsAux control_id i steps).length = steps.length := by
  intro i steps
  induction steps generalizing i with
  | nil => rfl
  | cons s ss ih => simp [nistRowsAux, ih]

theorem stigRowsCtrls_length (tech : String) : ∀ {ctrls : List (String × List StigRule)}
    {rows : List (List String)}, stigRowsCtrls tech ctrls = some rows →
    rows.length = (ctrls.map (fun cr => cr.2.length)).sum := by
  intro ctrls
  induction ctrls with
  | nil =>
    intro rows h
    simp [stigRowsCtrls] at h
    subst h
    rfl
  | cons cr rest ih =>
    intro rows h
    unfold stigRowsCtrls at h
    cases ha : mapOpt (stigRow tech) cr.2 with
    | none => rw [ha] at h; cases h
    | some a =>
      rw [ha] at h
      cases hb : stigRowsCtrls tech rest with
      | none => rw [hb] at h; cases h
      | some b =>
        rw [hb] at h
        cases h
        simp [List.length_append, mapOpt_length ha, ih hb]

theorem stigRowsFor_length : ∀ {recs : List (String × List (String × List StigRule))}
    {rows : List (List String)}, stigRowsFor recs = some rows →
    rows.length = countRules recs := by
  intro recs
  induction recs with
  | nil =>
    intro rows h
    simp [stigRowsFor] at h
    subst h
    rfl
  | cons tr rest ih =>
    intro rows h
    unfold stigRowsFor at h
    cases ha : stigRowsCtrls tr.1 tr.2 with
    | none => rw [ha] at h; cases h
    | some a =>
      rw [ha] at h
      cases hb : stigRowsFor rest with
      | none => rw [hb] at h; cases h
      | some b =>
        rw [hb] at h
        cases h
        rw [List.length_append, stigRowsCtrls_length tr.1 ha, ih hb]
        simp [countRules]

theorem nistRow_last (control_id : String) (i : Nat) (step : String) :
    (nistRow control_id i step).getLastD "" = "Pending" := rfl

theorem stigRow_last {tech : String} {rec : StigRule} {row : List String}
    (h : stigRow tech rec = some row) : row.getLastD "" = "Pending" := by
  unfold stigRow at h
  cases ht : stigTask rec with
  | none => rw [ht] at h; cases h
  | some task =>
    rw [ht] at h
    simp only [Option.map_some'] at h
    cases h
    rfl

theorem nistRowsAux_pending (control_id : String) : ∀ (i : Nat) (steps : List String)
    (r : List String), r ∈ nistRowsAux control_id i steps → r.getLastD "" = "Pending" := by
  intro i steps
  induction steps generalizing i with
  | nil => intro r hr; simp [nistRowsAux] at hr
  | cons s ss ih =>
    intro r hr
    simp only [nistRowsAux, List.mem_cons] at hr
    rcases hr with heq | hmem
    · exact heq ▸ nistRow_last control_id i s
    · exact ih (i + 1) r hmem

theorem stigRowsCtrls_pending (tech : String) : ∀ {ctrls : List (String × List StigRule)}
    {rows : List (List String)}, stigRowsCtrls tech ctrls = some rows →
    ∀ r ∈ rows, r.getLastD "" = "Pending" := by
  intro ctrls
  induction ctrls with
  | nil =>
    intro rows h r hr
    simp [stigRowsCtrls] at h
    subst h
    simp at hr
  | cons cr rest ih =>
    intro rows h r hr
    unfold stigRowsCtrls at h
    cases ha : mapOpt (stigRow tech) cr.2 with
    | none => rw [ha] at h; cases h
    | some a =>
      rw [ha] at h
      cases hb : stigRowsCtrls tech rest with
      | none => rw [hb] at h; cases h
      | some b =>
        rw [hb] at h
        cases h
        rcases List.mem_append.mp hr with hma | hmb
        · obtain ⟨rule, hrule⟩ := mapOpt_mem ha r hma
          exact stigRow_last hrule
        · exact ih hb r hmb

theorem stigRowsFor_pending : ∀ {recs : List (String × List (String × List StigRule))}
    {rows : List (List String)}, stigRowsFor recs = some rows →
    ∀ r ∈ rows, r.getLastD "" = "Pending" := by
  intro recs
  induction recs with
  | nil =>
    intro rows h r hr
    simp [stigRowsFor] at h
    subst h
    simp at hr
  | cons tr rest ih =>
    intro rows h r hr
    unfold stigRowsFor at h
    cases ha : stigRowsCtrls tr.1 tr.2 with
    | none => rw [ha] at h; cases h
    | some a =>
      rw [ha] at h
      cases hb : stigRowsFor rest with
      | none => rw [hb] at h; cases h
      | some b =>
        rw [hb] at h
        cases h
        rcases List.mem_append.mp hr with hma | hmb
        · exact stigRowsCtrls_pending tr.1 ha r hma
        · exact ih hb r hmb

/-- C7 counterexample: a matched rule whose fix text is the single digit
`"1"` makes `save_checklist` raise `IndexError` at `line[1]` (line 80), so
no complete table is produced, although the claim promises one record for
that rule. -/
theorem C7_counterexample :
    save_checklist_rows "AU-2" []
      [("Windows 10", [("AU-2", [⟨"SV-1", "rule title", "1", some "high"⟩])])] = none ∧
    countRules [("Windows 10", [("AU-2", [⟨"SV-1", "rule title", "1", some "high"⟩])])] = 1 := by
  refine ⟨by decide, by decide⟩

/-- C7 as amended: whenever the export completes (no stripped fix line is a
lone digit), the table is the header plus exactly one record per assessment
step and one per matched hardening rule, and every data record has status
`"Pending"`; in particular 3 steps and 2 matched rules give 5 data records. -/
theorem C7_checklist_row_coverage (control_id : String) (steps : List String)
    (recs : List (String × List (String × List StigRule))) (rows : List (List String))
    (h : save_checklist_rows control_id steps recs = some rows) :
    rows.length = 1 + steps.length + countRules recs ∧
    ∀ r ∈ rows.tail, r.getLastD "" = "Pending" := by
  unfold save_checklist_rows at h
  cases hs : stigRowsFor recs with
  | none => rw [hs] at h; cases h
  | some srows =>
    rw [hs] at h
    simp only [Option.map_some'] at h
    cases h
    constructor
    · simp [List.length_append, nistRows, nistRowsAux_length, stigRowsFor_length hs]
      omega
    · intro r hr
      simp only [List.tail_cons] at hr
      rcases List.mem_append.mp hr with hma | hmb
      · exact nistRowsAux_pending control_id 1 steps r hma
      · exact stigRowsFor_pending hs r hmb

def demoChecklistRecs : List (String × List (String × List StigRule)) :=
  [("Windows 10", [("AU-2", [⟨"W-1", "first rule", "enable auditing", some "high"⟩,
                             ⟨"W-2", "second rule", "configure log size", none⟩])])]

/-- Witness for the amended C7: 3 assessment steps and 2 matched rules in
one technology give a header plus exactly 5 `"Pending"` records. -/
theorem C7_checklist_witness :
    (save_checklist_rows "AU-2" ["check policy", "check records", "check retention"]
        demoChecklistRecs).isSome = true ∧
    ((save_checklist_rows "AU-2" ["check policy", "check records", "check retention"]
        demoChecklistRecs).getD []).length = 6 := by
  constructor
  · decide
  · cases hs : save_checklist_rows "AU-2" ["check policy", "check records", "check retention"]
      demoChecklistRecs with
    | none => exact absurd hs (by decide)
    | some rows =>
      have h := (C7_checklist_row_coverage "AU-2"
        ["check policy", "check records", "check retention"] demoChecklistRecs rows hs).1
      simp only [Option.getD_some]
      rw [h]
      decide

/-! ### STIG loading (src/src/parsers.py:235-267, nist_compliance_rag.py:239-263)

`load_stig_data` iterates over the folder's files; each successfully parsed
file appends one entry to `available_stigs` and assigns
`all_stig_recommendations[technology] = recommendations` (replacing any
earlier map for the same technology).  Parsing (`parse_stig_xccdf`, XML) is
an external step here; each file is given as its name together with the
parse outcome (`none` for a raised exception, which the loader catches and
skips). -/

structure ParsedStig where
  recs : List (String × List StigRule)
  technology : String
  title : String
  benchmark_id : String
  version : String
  deriving DecidableEq, Repr

def parsedToStig (name : String) (p : ParsedStig) : Stig :=
  ⟨name, p.title, p.technology, p.benchmark_id, p.version⟩

def load_stig_data (files : List (String × Option ParsedStig)) :
    RecTable × List Stig :=
  files.foldl (fun acc f =>
    match f.2 with
    | none => acc
    | some p => (updateAssoc acc.1 p.technology p.recs, acc.2 ++ [parsedToStig f.1 p]))
    ([], [])

/-- The rule map of the last successfully parsed file with the given
technology name. -/
def lastRecsFor : List (String × Option ParsedStig) → String →
    Option (List (String × List StigRule))
  | [], _ => none
  | f :: rest, t =>
    match lastRecsFor rest t with
    | some r => some r
    | none =>
      match f.2 with
      | some p => if p.technology = t then some p.recs else none
      | none => none

theorem lookup_updateAssoc {m : List (String × α)} {k t : String} {v : α} :
    lookupA (updateAssoc m k v) t = if t = k then some v else lookupA m t := by
  induction m with
  | nil => rfl
  | cons kv rest ih =>
    obtain ⟨k', v'⟩ := kv
    simp only [updateAssoc]
    by_cases hkk : k' = k
    · rw [if_pos hkk]
      subst hkk
      simp only [lookupA]
      by_cases htk : t = k'
      · simp [htk]
      · simp [htk]
    · rw [if_neg hkk]
      simp only [lookupA]
      rw [ih]
      have hkk2 : ¬k = k' := fun h => hkk h.symm
      by_cases htk' : t = k'
      · have htk : ¬t = k := fun h => hkk (htk'.symm.trans h)
        simp [htk', htk, hkk, hkk2]
      · by_cases htk : t = k
        · simp [htk', htk, hkk, hkk2]
        · simp [htk', htk]

theorem length_updateAssoc {m : List (String × α)} {k : String} {v : α} :
    (updateAssoc m k v).length ≤ m.length + 1 := by
  induction m with
  | nil => simp [updateAssoc]
  | cons kv rest ih =>
    unfold updateAssoc
    by_cases hkk : kv.1 = k
    · obtain ⟨k', v'⟩ := kv
      rw [if_pos hkk]
      simp
    · obtain ⟨k', v'⟩ := kv
      rw [if_neg hkk]
      simp only [List.length_cons]
      omega

theorem load_stig_aux_snd : ∀ (files : List (String × Option ParsedStig))
    (acc : RecTable × List Stig),
    (files.foldl (fun acc f =>
      match f.2 with
      | none => acc
      | some p => (updateAssoc acc.1 p.technology p.recs, acc.2 ++ [parsedToStig f.1 p]))
      acc).2 =
      acc.2 ++ files.filterMap (fun f => f.2.map (parsedToStig f.1)) := by
  intro files
  induction files with
  | nil => intro acc; simp
  | cons f rest ih =>
    intro acc
    rw [List.foldl_cons]
    cases hf : f.2 with
    | none =>
      rw [List.filterMap_cons_none (by rw [hf]; rfl), ih]
    | some p =>
      rw [List.filterMap_cons_some (b := parsedToStig f.1 p) (by rw [hf]; rfl), ih]
      simp

theorem load_stig_aux_le : ∀ (files : List (String × Option ParsedStig))
    (acc : RecTable × List Stig), acc.1.length ≤ acc.2.length →
    (files.foldl (fun acc f =>
      match f.2 with
      | none => acc
      | some p => (updateAssoc acc.1 p.technology p.recs, acc.2 ++ [parsedToStig f.1 p]))
      acc).1.length ≤
    (files.foldl (fun acc f =>
      match f.2 with
      | none => acc
      | some p => (updateAssoc acc.1 p.technology p.recs, acc.2 ++ [parsedToStig f.1 p]))
      acc).2.length := by
  intro files
  induction files with
  | nil => intro acc h; exact h
  | cons f rest ih =>
    intro acc h
    rw [List.foldl_cons]
    cases hf : f.2 with
    | none => exact ih acc h
    | some p =>
      refine ih _ ?_
      simp only [List.length_append, List.length_cons, List.length_nil]
      calc (updateAssoc acc.1 p.technology p.recs).length
          ≤ acc.1.length + 1 := length_updateAssoc
        _ ≤ acc.2.length + 1 := by omega
        _ = acc.2.length + (0 + 1) := by omega

theorem load_stig_aux_lookup (t : String) : ∀ (files : List (String × Option ParsedStig))
    (acc : RecTable × List Stig),
    lookupA (files.foldl (fun acc f =>
      match f.2 with
      | none => acc
      | some p => (updateAssoc acc.1 p.technology p.recs, acc.2 ++ [parsedToStig f.1 p]))
      acc).1 t =
    (match lastRecsFor files t with
     | some r => some r
     | none => lookupA acc.1 t) := by
  intro files
  induction files with
  | nil => intro acc; rfl
  | cons f rest ih =>
    intro acc
    rw [List.foldl_cons]
    unfold lastRecsFor
    cases hl : lastRecsFor rest t with
    | some r =>
      cases hf : f.2 with
      | none =>
        rw [ih]
        rw [hl]
      | some p =>
        rw [ih]
        rw [hl]
    | none =>
      cases hf : f.2 with
      | none =>
        rw [ih, hl]
      | some p =>
        rw [ih, hl]
        dsimp only
        rw [lookup_updateAssoc]
        by_cases hpt : p.technology = t
        · rw [if_pos hpt, if_pos hpt.symm]
        · rw [if_neg hpt, if_neg (fun h => hpt h.symm)]

theorem length_filterMap_parsed : ∀ (files : List (String × Option ParsedStig)),
    (files.filterMap (fun f => f.2.map (parsedToStig f.1))).length =
      (files.filter (fun f => f.2.isSome)).length := by
  intro files
  induction files with
  | nil => rfl
  | cons f rest ih =>
    rw [List.filterMap_cons, List.filter_cons]
    cases hf : f.2 with
    | none => simpa using ih
    | some p => simpa using ih

/-- C10: after loading, `available_stigs` has exactly one entry per
successfully parsed file (in file order); `all_stig_recommendations` is
keyed by technology, a later-parsed file with the same technology completely
replacing the earlier map; hence the number of technologies with
recommendations never exceeds the number of `available_stigs` entries. -/
theorem C10_load_stig_data (files : List (String × Option ParsedStig)) :
    (load_stig_data files).2 = files.filterMap (fun f => f.2.map (parsedToStig f.1)) ∧
    (load_stig_data files).2.length = (files.filter (fun f => f.2.isSome)).length ∧
    (∀ t, lookupA (load_stig_data files).1 t = lastRecsFor files t) ∧
    (load_stig_data files).1.length ≤ (load_stig_data files).2.length := by
  refine ⟨?_, ?_, ?_, ?_⟩
  · unfold load_stig_data
    rw [load_stig_aux_snd]
    rfl
  · unfold load_stig_data
    rw [load_stig_aux_snd]
    simp only [List.nil_append]
    exact length_filterMap_parsed files
  · intro t
    unfold load_stig_data
    rw [load_stig_aux_lookup]
    cases lastRecsFor files t with
    | none => rfl
    | some r => rfl
  · unfold load_stig_data
    exact load_stig_aux_le files ([], []) (by simp)

/-! ### Vector-store cache (src/src/vector_store.py:10-45, modules/vector_store.py,
nist_compliance_rag.py:405-424)

    index_file = os.path.join(knowledge_dir, f"faiss_index_{hashlib.md5(model_name.encode()).hexdigest()}.pkl")
    model = SentenceTransformer(model_name)
    if os.path.exists(index_file):
        index, doc_list = pickle.load(open(index_file, 'rb'))
    else:
        embeddings = model.encode(documents); ...; pickle.dump((index, doc_list), ...)
    return model, index, doc_list

MD5 is implemented below (RFC 1321) on UTF-8 bytes.  The filesystem is an
association list from file name to the persisted pair, the embedding
function is an injected parameter, and the FAISS flat index is its list of
stored vectors. -/

def utf8Char (c : Char) : List Nat :=
  let n := c.toNat
  if n < 128 then [n]
  else if n < 2048 then [192 + n / 64, 128 + n % 64]
  else if n < 65536 then [224 + n / 4096, 128 + n / 64 % 64, 128 + n % 64]
  else [240 + n / 262144, 128 + n / 4096 % 64, 128 + n / 64 % 64, 128 + n % 64]

def utf8Bytes (s : String) : List Nat := (s.data.map utf8Char).flatten

def w32 (n : Nat) : Nat := n % 4294967296

def rotl32 (x s : Nat) : Nat := w32 (x * 2 ^ s + x / 2 ^ (32 - s))

def notw (x : Nat) : Nat := 4294967295 - w32 x

/-- The 64 sine-derived round constants of RFC 1321. -/
def md5K : List Nat :=
  [0xd76aa478, 0xe8c7b756, 0x242070db, 0xc1bdceee,
   0xf57c0faf, 0x4787c62a, 0xa8304613, 0xfd469501,
   0x698098d8, 0x8b44f7af, 0xffff5bb1, 0x895cd7be,
   0x6b901122, 0xfd987193, 0xa679438e, 0x49b40821,
   0xf61e2562, 0xc040b340, 0x265e5a51, 0xe9b6c7aa,
   0xd62f105d, 0x02441453, 0xd8a1e681, 0xe7d3fbc8,
   0x21e1cde6, 0xc33707d6, 0xf4d50d87, 0x455a14ed,
   0xa9e3e905, 0xfcefa3f8, 0x676f02d9, 0x8d2a4c8a,
   0xfffa3942, 0x8771f681, 0x6d9d6122, 0xfde5380c,
   0xa4beea44, 0x4bdecfa9, 0xf6bb4b60, 0xbebfbc70,
   0x289b7ec6, 0xeaa127fa, 0xd4ef3085, 0x04881d05,
   0xd9d4d039, 0xe6db99e5, 0x1fa27cf8, 0xc4ac5665,
   0xf4292244, 0x432aff97, 0xab9423a7, 0xfc93a039,
   0x655b59c3, 0x8f0ccc92, 0xffeff47d, 0x85845dd1,
   0x6fa87e4f, 0xfe2ce6e0, 0xa3014314, 0x4e0811a1,
   0xf7537e82, 0xbd3af235, 0x2ad7d2bb, 0xeb86d391]

def md5S : List Nat :=
  [7, 12, 17, 22, 7, 12, 17, 22, 7, 12, 17, 22, 7, 12, 17, 22,
   5, 9, 14, 20, 5, 9, 14, 20, 5, 9, 14, 20, 5, 9, 14, 20,
   4, 11, 16, 23, 4, 11, 16, 23, 4, 11, 16, 23, 4, 11, 16, 23,
   6, 10, 15, 21, 6, 10, 15, 21, 6, 10, 15, 21, 6, 10, 15, 21]

def md5F (i b c d : Nat) : Nat :=
  if i < 16 then (b.land c).lor ((notw b).land d)
  else if i < 32 then (b.land d).lor (c.land (notw d))
  else if i < 48 then (b.xor c).xor d
  else c.xor (b.lor (notw d))

def md5G (i : Nat) : Nat :=
  if i < 16 then i
  else if i < 32 then (5 * i + 1) % 16
  else if i < 48 then (3 * i + 5) % 16
  else (7 * i) % 16

def leWord (b : List Nat) : Nat :=
  b.getD 0 0 + 256 * b.getD 1 0 + 65536 * b.getD 2 0 + 16777216 * b.getD 3 0

def chunkWords (chunk : List Nat) : List Nat :=
  (List.range 16).map (fun j => leWord ((chunk.drop (4 * j)).take 4))

def md5Round (M : List Nat) (st : Nat × Nat × Nat × Nat) (i : Nat) :
    Nat × Nat × Nat × Nat :=
  let f := w32 (md5F i st.2.1 st.2.2.1 st.2.2.2 + st.1 + md5K.getD i 0 +
    M.getD (md5G i) 0)
  (st.2.2.2, w32 (st.2.1 + rotl32 f (md5S.getD i 0)), st.2.1, st.2.2.1)

def md5Chunk (st : Nat × Nat × Nat × Nat) (chunk : List Nat) :
    Nat × Nat × Nat × Nat :=
  let r := (List.range 64).foldl (md5Round (chunkWords chunk)) st
  (w32 (st.1 + r.1), w32 (st.2.1 + r.2.1), w32 (st.2.2.1 + r.2.2.1),
   w32 (st.2.2.2 + r.2.2.2))

/-- Append `0x80`, zero-pad to 56 mod 64, then the 64-bit little-endian bit
length. -/
def md5Pad (msg : List Nat) : List Nat :=
  let z := (119 - msg.length % 64) % 64
  let bitLen := (8 * msg.length) % (2 ^ 64)
  msg ++ [128] ++ List.replicate z 0 ++
    (List.range 8).map (fun j => bitLen / 256 ^ j % 256)

def chunks64Go : Nat → List Nat → List (List Nat)
  | 0, _ => []
  | _ + 1, [] => []
  | n + 1, l => l.take 64 :: chunks64Go n (l.drop 64)

def chunks64 (l : List Nat) : List (List Nat) := chunks64Go l.length l

def wordLEBytes (w : Nat) : List Nat :=
  [w % 256, w / 256 % 256, w / 65536 % 256, w / 16777216 % 256]

def md5Bytes (msg : List Nat) : List Nat :=
  let st := (chunks64 (md5Pad msg)).foldl md5Chunk
    (0x67452301, 0xefcdab89, 0x98badcfe, 0x10325476)
  wordLEBytes st.1 ++ wordLEBytes st.2.1 ++ wordLEBytes st.2.2.1 ++
    wordLEBytes st.2.2.2

def hexDigitCh (n : Nat) : Char :=
  if n < 10 then Char.ofNat (48 + n) else Char.ofNat (87 + n)

def byteHexL (b : Nat) : List Char := [hexDigitCh (b / 16 % 16), hexDigitCh (b % 16)]

/-- `hashlib.md5(s.encode()).hexdigest()`. -/
def md5hex (s : String) : String := ⟨((md5Bytes (utf8Bytes s)).map byteHexL).flatten⟩

/-- The cached-index file name (`os.path.join` on POSIX). -/
def index_file_name (knowledge_dir model_name : String) : String :=
  knowledge_dir ++ "/faiss_index_" ++ md5hex model_name ++ ".pkl"

/-- The on-disk store: file name → persisted (index vectors, document list). -/
abbrev IndexFS := List (String × (List (List Int) × List String))

/-- `build_vector_store`: on a fingerprint (file-name) hit, load the
persisted index and document list; otherwise encode every document with the
injected embedding function, build the flat index and persist it. -/
def build_vector_store (enc : String → List Int) (documents : List String)
    (model_name knowledge_dir : String) (fs : IndexFS) :
    (List (List Int) × List String) × IndexFS :=
  match lookupA fs (index_file_name knowledge_dir model_name) with
  | some stored => (stored, fs)
  | none =>
    let embeddings := documents.map enc
    ((embeddings, documents),
     updateAssoc fs (index_file_name knowledge_dir model_name) (embeddings, documents))

theorem string_ext {a b : String} (h : a.data = b.data) : a = b := by
  cases a
  cases b
  exact congrArg String.mk h

theorem index_file_name_inj {kd m1 m2 : String} (h : md5hex m1 ≠ md5hex m2) :
    index_file_name kd m1 ≠ index_file_name kd m2 := by
  intro he
  apply h
  have hd : (index_file_name kd m1).data = (index_file_name kd m2).data := by rw [he]
  simp only [index_file_name, String.data_append] at hd
  have h1 := List.append_cancel_right hd
  exact string_ext (List.append_cancel_left h1)

/-- C8: building the index twice with the same model identity loads the
persisted index and snippet list on the second call — the result is
independent of the embedding function passed the second time (no embedding
is recomputed) and the store is unchanged; a model identity with a different
MD5 fingerprint misses the cache and re-encodes the documents. -/
theorem C8_cache_fingerprint_stability (enc enc2 : String → List Int)
    (documents documents2 : List String) (m m2 kd : String) :
    (build_vector_store enc documents m kd []).1 = (documents.map enc, documents) ∧
    (build_vector_store enc2 documents2 m kd
        (build_vector_store enc documents m kd []).2) =
      ((documents.map enc, documents), (build_vector_store enc documents m kd []).2) ∧
    (md5hex m2 ≠ md5hex m →
      (build_vector_store enc2 documents2 m2 kd
          (build_vector_store enc documents m kd []).2).1 =
        (documents2.map enc2, documents2)) := by
  have hfs : (build_vector_store enc documents m kd []).2 =
      [(index_file_name kd m, (documents.map enc, documents))] := rfl
  refine ⟨rfl, ?_, ?_⟩
  · rw [hfs]
    unfold build_vector_store
    have hlk : lookupA [(index_file_name kd m, (documents.map enc, documents))]
        (index_file_name kd m) = some (documents.map enc, documents) := by
      unfold lookupA
      rw [if_pos rfl]
    rw [hlk]
  · intro hne
    rw [hfs]
    unfold build_vector_store
    have hlk : lookupA [(index_file_name kd m, (documents.map enc, documents))]
        (index_file_name kd m2) = none := by
      unfold lookupA
      rw [if_neg (index_file_name_inj hne)]
      rfl
    rw [hlk]

set_option maxRecDepth 10000 in
/-- Witness for C8 with the repository's default model name versus another
sentence-transformer name: same name → cache hit with the stored index and
snippets, different name → different fingerprint and a full rebuild. -/
theorem C8_cache_witness :
    (build_vector_store (fun _ => [(0 : Int)]) ["doc"] "all-mpnet-base-v2"
      "knowledge" []).1 = ([[0]], ["doc"]) ∧
    (build_vector_store (fun _ => [(1 : Int)]) ["other"] "all-mpnet-base-v2" "knowledge"
        (build_vector_store (fun _ => [(0 : Int)]) ["doc"] "all-mpnet-base-v2"
          "knowledge" []).2).1 = ([[0]], ["doc"]) ∧
    (build_vector_store (fun _ => [(1 : Int)]) ["other"] "all-MiniLM-L6-v2" "knowledge"
        (build_vector_store (fun _ => [(0 : Int)]) ["doc"] "all-mpnet-base-v2"
          "knowledge" []).2).1 = ([[1]], ["other"]) := by
  have h := C8_cache_fingerprint_stability (fun _ => [(0 : Int)]) (fun _ => [(1 : Int)])
    ["doc"] ["other"] "all-mpnet-base-v2" "all-MiniLM-L6-v2" "knowledge"
  refine ⟨h.1, ?_, h.2.2 (by decide)⟩
  rw [h.2.1]
  rfl

end ComplianceLLM
